import Mathlib

/-!
Verification of `pytorch_translate/dual_learning/dual_learning_criterion.py`.

A shallow embedding of `UnsupervisedCriterion`: the per-example reward loop of
`forward` (lines 89-150), the decoder `maxlen` computation of
`_generate_translation` (line 51), and the static `aggregate_logging_outputs`
reduction (lines 191-216).

Conventions of the embedding:
* token ids are `ℕ`; token sequences are `List ℕ`;
* Python numbers are modelled as exact rationals `ℚ`;
* fallible Python operations (indexing an empty sequence, dividing by zero,
  a failed `assert`, an unsupported-operand `in`/`/`) return
  `Except PyErr _` with the corresponding Python exception;
* the external capabilities that the criterion merely invokes (the beam-search
  decoder, the backward model, the fairseq BLEU scorer) are abstracted as
  oracle parameters, matching the spec's "out of scope" list; every piece of
  control flow and arithmetic that lives in this file's source is embedded.
-/

set_option autoImplicit false

namespace DualLearningCriterion

/-- The Python exceptions that the embedded code can raise. -/
inductive PyErr where
  | indexError
  | typeError
  | zeroDivisionError
  | assertionError
  deriving DecidableEq, Repr

/-- Command-line arguments consumed by `UnsupervisedCriterion.__init__`
(lines 21-26): `args.reward_alpha` and `args.append_eos_to_source`. -/
structure Args where
  reward_alpha : ℚ
  append_eos_to_source : Bool
  deriving DecidableEq, Repr

/-- The state `__init__` stores on the criterion:
`self.alpha = args.reward_alpha` and
`self.remove_eos_at_src = not args.append_eos_to_source` (lines 24-25). -/
structure Criterion where
  alpha : ℚ
  remove_eos_at_src : Bool
  deriving DecidableEq, Repr

/-- `UnsupervisedCriterion.__init__` (lines 21-26), restricted to the two
fields the reward loop reads. -/
def mkCriterion (args : Args) : Criterion :=
  ⟨args.reward_alpha, !args.append_eos_to_source⟩

/-- A weighted sample as built by the reward loop: the Python dict
`{"id": …, "source": …, "target": …, "weights": …}` (lines 110-115, 143-150). -/
structure Sample where
  id : ℕ
  source : List ℕ
  target : List ℕ
  weights : ℚ
  deriving DecidableEq, Repr

/-- One element yielded by `_generate_translation` (line 56): the example id,
its padding-stripped source, and the n-best hypothesis list, where each
hypothesis is represented by its `"tokens"` sequence. -/
structure DecodedExample where
  id : ℕ
  src : List ℕ
  hypos : List (List ℕ)
  deriving DecidableEq, Repr

/-- Python `seq[-1]`: the last element, `IndexError` on an empty sequence. -/
def lastElem (l : List ℕ) : Except PyErr ℕ :=
  match l.getLast? with
  | some a => .ok a
  | none => .error .indexError

/-- Python `hypos[0]["tokens"]` (line 100): the best hypothesis' token
sequence, `IndexError` when the hypothesis list is empty. -/
def topHypoTokens (hypos : List (List ℕ)) : Except PyErr (List ℕ) :=
  match hypos with
  | [] => .error .indexError
  | h :: _ => .ok h

/-- Lines 101-106: the backward target.  `original_src` starts as the
padding-stripped source; when its last token is not `eos_index`, one eos
token is concatenated at the end. -/
def mkOriginalSrc (eos_index : ℕ) (src : List ℕ) : Except PyErr (List ℕ) := do
  let last ← lastElem src
  if last ≠ eos_index then
    pure (src ++ [eos_index])
  else
    pure src

/-- Lines 107-109: the backward source.  `bt_src = hypos[0]["tokens"]`,
and when `self.remove_eos_at_src` holds, `bt_src = bt_src[:-1]`
(Python `[:-1]` drops the last element; on an empty sequence it is a no-op). -/
def mkBtSrc (crit : Criterion) (tokens : List ℕ) : List ℕ :=
  if crit.remove_eos_at_src then tokens.dropLast else tokens

/-- Lines 99-115: the backward-direction sample for one decoded example.
Note there is no eos check anywhere in this construction: the assertion on
`hypos[0]["tokens"][-1]` sits at line 138, after the sample is built. -/
def mkBackwardSample (crit : Criterion) (eos_index : ℕ) (id : ℕ)
    (src tokens : List ℕ) : Except PyErr Sample := do
  let original_src ← mkOriginalSrc eos_index src
  pure ⟨id, mkBtSrc crit tokens, original_src, 1 - crit.alpha⟩

/-- Line 92: `lm_score = 0.5`, the placeholder forward confidence. -/
def lm_score : ℚ := 1 / 2

/-- Lines 134-136:
`total_reward = self.alpha * forward_reward + (1.0 - self.alpha) * backward_reward`
with `forward_reward = lm_score` (line 95). -/
def totalReward (alpha backward_reward : ℚ) : ℚ :=
  alpha * lm_score + (1 - alpha) * backward_reward

/-- Lines 96-150, one iteration of the reward loop.  `score bwd` abstracts
the external round trip of lines 118-132 up to the BLEU percentage: collating
the backward sample, decoding it with the backward model and calling
`scorer.score(order=4)`; the division by `100.0` (line 132) and everything
after it is embedded.  Returns the forward and backward samples appended to
`forward_samples` / `backward_samples`, or the Python exception the iteration
raises. -/
def stepExample (crit : Criterion) (eos_index : ℕ) (score : Sample → ℚ)
    (ex : DecodedExample) : Except PyErr (Sample × Sample) := do
  let tokens ← topHypoTokens ex.hypos
  let bwd ← mkBackwardSample crit eos_index ex.id ex.src tokens
  let backward_reward := score bwd / 100
  let total_reward := totalReward crit.alpha backward_reward
  let lastHyp ← lastElem tokens
  if lastHyp = eos_index then
    pure (⟨ex.id, ex.src, tokens, total_reward⟩, bwd)
  else
    .error .assertionError

/-- The whole reward loop (`for id, src, hypos in nbest_translations`,
lines 96-150): accumulates `forward_samples` and `backward_samples` in order;
the first exception aborts the training step. -/
def runLoop (crit : Criterion) (eos_index : ℕ) (score : Sample → ℚ) :
    List DecodedExample → List Sample → List Sample →
    Except PyErr (List Sample × List Sample)
  | [], fwd, bwd => .ok (fwd, bwd)
  | ex :: rest, fwd, bwd =>
    match stepExample crit eos_index score ex with
    | .error e => .error e
    | .ok (f, b) => runLoop crit eos_index score rest (fwd ++ [f]) (bwd ++ [b])

/-- Python `int(q)` for a float value: truncation toward zero. -/
def pyInt (q : ℚ) : ℤ :=
  if 0 ≤ q then ⌊q⌋ else ⌈q⌉

/-- Line 51: `maxlen=int(self.args.max_len_a * srclen + self.args.max_len_b)`,
where `srclen = input["src_tokens"].size(1)` is the padded source length. -/
def maxlen (max_len_a max_len_b : ℚ) (srclen : ℕ) : ℤ :=
  pyInt (max_len_a * srclen + max_len_b)

/-! ## `aggregate_logging_outputs` (lines 191-216) -/

/-- A value stored in a logging record: either a number, or — for the nested
`{"primal": …, "dual": …}` shape returned by `forward` (lines 168, 187) — a
sub-record mapping keys to numbers. -/
inductive LogVal where
  | num : ℚ → LogVal
  | sub : List (String × ℚ) → LogVal
  deriving DecidableEq, Repr

/-- A logging record: a Python dict in insertion order. -/
abbrev LogRecord := List (String × LogVal)

/-- The generator body of lines 199-202:
`sum(log[key] if key in log else 0 for _, log in logging_outputs[0].items())`.
Iterates the values of the first record; `key in log` on a numeric value is a
Python `TypeError` (argument of type float is not iterable); a sub-record
contributes its value at `key`, or `0` when the key is missing. -/
def sumNested (key : String) : LogRecord → Except PyErr ℚ
  | [] => .ok 0
  | (_, .num _) :: _ => .error .typeError
  | (_, .sub s) :: rest => do
    let r ← sumNested key rest
    pure ((s.lookup key).getD 0 + r)

/-- `get_logging_output` (lines 195-202): looks `key` up in
`logging_outputs[0]` and, when absent there, sums it across the values of
`logging_outputs[0]` (note: in both branches only the FIRST record of
`logging_outputs` is consulted).  `logging_outputs[0]` on an empty list is an
`IndexError`. -/
def getLoggingOutput (logging_outputs : List LogRecord) (key : String) :
    Except PyErr LogVal :=
  match logging_outputs with
  | [] => .error .indexError
  | r :: _ =>
    match r.lookup key with
    | some v => .ok v
    | none => (sumNested key r).map .num

/-- Python `/` on logging values: `TypeError` unless both operands are
numbers, `ZeroDivisionError` on a zero divisor. -/
def pyDiv : LogVal → LogVal → Except PyErr ℚ
  | .num a, .num b => if b = 0 then .error .zeroDivisionError else .ok (a / b)
  | _, _ => .error .typeError

/-- The `agg_output` dict of lines 208-215, with the quotients kept as exact
rationals; the common division of `loss` and `nll_loss` by `math.log(2)` is
applied in the real-valued views `AggOut.loss` and `AggOut.nll_loss` below.
`nllQ = none` models the absence of the `"nll_loss"` key. -/
structure AggOut where
  lossQ : ℚ
  ntokens : LogVal
  nsentences : LogVal
  sample_size : LogVal
  nllQ : Option ℚ
  deriving DecidableEq, Repr

/-- `aggregate_logging_outputs` (lines 191-216): reads the four fields via
`get_logging_output`, computes `loss = loss_sum / sample_size / ln 2`, copies
`ntokens`, `nsentences`, `sample_size`, and adds
`nll_loss = loss_sum / ntokens / ln 2` exactly when `sample_size != ntokens`. -/
def aggregateLoggingOutputs (logging_outputs : List LogRecord) :
    Except PyErr AggOut := do
  let loss_sum ← getLoggingOutput logging_outputs "loss"
  let ntokens ← getLoggingOutput logging_outputs "ntokens"
  let nsentences ← getLoggingOutput logging_outputs "nsentences"
  let sample_size ← getLoggingOutput logging_outputs "sample_size"
  let lossQ ← pyDiv loss_sum sample_size
  if sample_size ≠ ntokens then do
    let nllQ ← pyDiv loss_sum ntokens
    pure ⟨lossQ, ntokens, nsentences, sample_size, some nllQ⟩
  else
    pure ⟨lossQ, ntokens, nsentences, sample_size, none⟩

/-- The reported headline metric `loss_sum / sample_size / math.log(2)`
(line 209). -/
noncomputable def AggOut.loss (a : AggOut) : ℝ :=
  (a.lossQ : ℝ) / Real.log 2

/-- The reported `nll_loss` value `loss_sum / ntokens / math.log(2)`
(line 215), present exactly when the key is. -/
noncomputable def AggOut.nll_loss (a : AggOut) : Option ℝ :=
  a.nllQ.map fun q => (q : ℝ) / Real.log 2

/-! ## Theorems -/

/-- Helper: how `aggregate_logging_outputs` unpacks once all four
`get_logging_output` calls return numbers. -/
theorem aggregateLoggingOutputs_ok_of_gets (logs : List LogRecord)
    (L T N S : ℚ)
    (hL : getLoggingOutput logs "loss" = .ok (.num L))
    (hT : getLoggingOutput logs "ntokens" = .ok (.num T))
    (hN : getLoggingOutput logs "nsentences" = .ok (.num N))
    (hS : getLoggingOutput logs "sample_size" = .ok (.num S))
    (hS0 : S ≠ 0) :
    aggregateLoggingOutputs logs =
      if T ≠ S ∧ T = 0 then .error .zeroDivisionError
      else .ok ⟨L / S, .num T, .num N, .num S,
        if S ≠ T then some (L / T) else none⟩ := by
  unfold aggregateLoggingOutputs
  rw [hL, hT, hN, hS]
  by_cases hST : S = T
  · subst hST
    simp [bind, Except.bind, pure, Except.pure, pyDiv, if_neg hS0]
  · by_cases hT0 : T = 0 <;>
      simp [bind, Except.bind, pure, Except.pure, Functor.map, Except.map, pyDiv,
        if_neg hS0, hST, hT0, Ne.symm hST, Ne.symm hS0]

/-- Claim C5: the aggregated logging output contains the key `nll_loss` iff
`sample_size` differs from `ntokens`; when present, `nll_loss` equals
`loss_sum / ntokens / ln 2`, and in all cases the headline `loss` equals
`loss_sum / sample_size / ln 2`. -/
theorem agg_nll_presence_and_values (logs : List LogRecord) (agg : AggOut)
    (L T N S : ℚ)
    (hL : getLoggingOutput logs "loss" = .ok (.num L))
    (hT : getLoggingOutput logs "ntokens" = .ok (.num T))
    (hN : getLoggingOutput logs "nsentences" = .ok (.num N))
    (hS : getLoggingOutput logs "sample_size" = .ok (.num S))
    (hok : aggregateLoggingOutputs logs = .ok agg) :
    (agg.nllQ.isSome ↔ S ≠ T) ∧
    agg.loss = ((L / S : ℚ) : ℝ) / Real.log 2 ∧
    (S ≠ T → agg.nll_loss = some (((L / T : ℚ) : ℝ) / Real.log 2)) ∧
    (S = T → agg.nll_loss = none) := by
  have hS0 : S ≠ 0 := by
    rintro rfl
    unfold aggregateLoggingOutputs at hok
    rw [hL, hT, hN, hS] at hok
    simp [bind, Except.bind, pyDiv] at hok
  rw [aggregateLoggingOutputs_ok_of_gets logs L T N S hL hT hN hS hS0] at hok
  by_cases hE : T ≠ S ∧ T = 0
  · rw [if_pos hE] at hok
    exact absurd hok (by simp)
  · rw [if_neg hE] at hok
    obtain rfl : (⟨L / S, .num T, .num N, .num S,
        if S ≠ T then some (L / T) else none⟩ : AggOut) = agg := by
      simpa using hok
    refine ⟨?_, rfl, ?_, ?_⟩
    · by_cases hST : S = T <;> simp [hST]
    · intro hST
      simp [AggOut.nll_loss, hST]
    · intro hST
      simp [AggOut.nll_loss, hST]

/-- Claim C6: when the value under `sample_size` is zero, the aggregation
entry point raises an unguarded `ZeroDivisionError`; there is no guard or
recovery path. -/
theorem agg_zero_sample_size_divides_by_zero (logs : List LogRecord)
    (l : ℚ) (tv nv : LogVal)
    (hL : getLoggingOutput logs "loss" = .ok (.num l))
    (hT : getLoggingOutput logs "ntokens" = .ok tv)
    (hN : getLoggingOutput logs "nsentences" = .ok nv)
    (hS : getLoggingOutput logs "sample_size" = .ok (.num 0)) :
    aggregateLoggingOutputs logs = .error .zeroDivisionError := by
  unfold aggregateLoggingOutputs
  rw [hL, hT, hN, hS]
  simp [bind, Except.bind, pyDiv]

/-- Witness for `agg_nll_presence_and_values`: the spec's concrete example
`{loss: 20, ntokens: 10, nsentences: 2, sample_size: 8}` yields
`nll_loss = 20/10/ln 2` and `loss = 20/8/ln 2`. -/
theorem agg_nll_presence_and_values_witness :
    ((⟨20 / 8, .num 10, .num 2, .num 8, some (20 / 10)⟩ : AggOut).nllQ.isSome ↔
        (8 : ℚ) ≠ 10) ∧
    (⟨20 / 8, .num 10, .num 2, .num 8, some (20 / 10)⟩ : AggOut).loss =
      (((20 : ℚ) / 8 : ℚ) : ℝ) / Real.log 2 ∧
    ((8 : ℚ) ≠ 10 →
      (⟨20 / 8, .num 10, .num 2, .num 8, some (20 / 10)⟩ : AggOut).nll_loss =
        some ((((20 : ℚ) / 10 : ℚ) : ℝ) / Real.log 2)) ∧
    ((8 : ℚ) = 10 →
      (⟨20 / 8, .num 10, .num 2, .num 8, some (20 / 10)⟩ : AggOut).nll_loss = none) :=
  agg_nll_presence_and_values
    [[("loss", .num 20), ("ntokens", .num 10), ("nsentences", .num 2),
      ("sample_size", .num 8)]]
    ⟨20 / 8, .num 10, .num 2, .num 8, some (20 / 10)⟩ 20 10 2 8 rfl rfl rfl rfl rfl

/-- Witness for `agg_zero_sample_size_divides_by_zero`: a worker record whose
`sample_size` is `0` makes the aggregation raise `ZeroDivisionError`. -/
theorem agg_zero_sample_size_witness :
    aggregateLoggingOutputs
      [[("loss", .num 20), ("ntokens", .num 10), ("nsentences", .num 2),
        ("sample_size", .num 0)]]
      = .error .zeroDivisionError :=
  agg_zero_sample_size_divides_by_zero
    [[("loss", .num 20), ("ntokens", .num 10), ("nsentences", .num 2),
      ("sample_size", .num 0)]]
    20 (.num 10) (.num 2) rfl rfl rfl rfl

/-- Claim C1 (refuting evidence): `aggregate_logging_outputs` reads only
`logging_outputs[0]`.  With two flat worker records
`{loss:1, ntokens:2, nsentences:1, sample_size:2}` and
`{loss:3, ntokens:4, nsentences:1, sample_size:4}` it reports the first
worker's fields (loss_sum 1, sample_size 2), not the across-worker sums
(loss_sum 4, sample_size 6) that the claim and the docstring describe. -/
theorem aggregate_ignores_all_but_first_worker :
    aggregateLoggingOutputs
      [[("loss", .num 1), ("ntokens", .num 2), ("nsentences", .num 1),
        ("sample_size", .num 2)],
       [("loss", .num 3), ("ntokens", .num 4), ("nsentences", .num 1),
        ("sample_size", .num 4)]]
      = .ok ⟨1 / 2, .num 2, .num 1, .num 2, none⟩ ∧
    (2 : ℚ) ≠ 2 + 4 ∧ (1 : ℚ) ≠ 1 + 3 :=
  ⟨rfl, by norm_num, by norm_num⟩

/-- Helper: what a successful loop iteration looks like. -/
theorem stepExample_ok_elim (crit : Criterion) (eos_index : ℕ)
    (score : Sample → ℚ) (ex : DecodedExample) (f b : Sample)
    (h : stepExample crit eos_index score ex = .ok (f, b)) :
    ∃ tokens, ex.hypos.head? = some tokens ∧
      mkBackwardSample crit eos_index ex.id ex.src tokens = .ok b ∧
      tokens.getLast? = some eos_index ∧
      f = ⟨ex.id, ex.src, tokens, totalReward crit.alpha (score b / 100)⟩ := by
  unfold stepExample topHypoTokens at h
  cases hh : ex.hypos with
  | nil =>
    rw [hh] at h
    simp [bind, Except.bind] at h
  | cons t rest =>
    rw [hh] at h
    simp only [bind, Except.bind] at h
    cases hb : mkBackwardSample crit eos_index ex.id ex.src t with
    | error e => rw [hb] at h; cases h
    | ok bwd =>
      rw [hb] at h
      unfold lastElem at h
      cases hl : t.getLast? with
      | none => rw [hl] at h; cases h
      | some lastTok =>
        rw [hl] at h
        simp only [pure, Except.pure] at h
        by_cases he : lastTok = eos_index
        · rw [if_pos he] at h
          simp only [Except.ok.injEq, Prod.mk.injEq] at h
          obtain ⟨hf, rfl⟩ := h
          exact ⟨t, by simp, hb, by rw [hl, he], hf.symm⟩
        · rw [if_neg he] at h
          cases h

/-- Helper: the backward sample a successful construction returns. -/
theorem mkBackwardSample_ok_elim (crit : Criterion) (eos_index id : ℕ)
    (src tokens : List ℕ) (b : Sample)
    (h : mkBackwardSample crit eos_index id src tokens = .ok b) :
    ∃ original_src, mkOriginalSrc eos_index src = .ok original_src ∧
      b = ⟨id, mkBtSrc crit tokens, original_src, 1 - crit.alpha⟩ := by
  unfold mkBackwardSample at h
  cases ho : mkOriginalSrc eos_index src with
  | error e => rw [ho] at h; cases h
  | ok os =>
    rw [ho] at h
    simp only [bind, Except.bind, pure, Except.pure, Except.ok.injEq] at h
    exact ⟨os, rfl, h.symm⟩

/-- Helper: a completed loop extends the accumulators by one sample per
decoded example. -/
theorem runLoop_lengths_aux (crit : Criterion) (eos_index : ℕ)
    (score : Sample → ℚ) (exs : List DecodedExample) :
    ∀ f0 b0 st, runLoop crit eos_index score exs f0 b0 = .ok st →
      st.1.length = f0.length + exs.length ∧
      st.2.length = b0.length + exs.length := by
  induction exs with
  | nil =>
    intro f0 b0 st h
    unfold runLoop at h
    simp only [Except.ok.injEq] at h
    subst h
    simp
  | cons ex rest ih =>
    intro f0 b0 st h
    unfold runLoop at h
    cases hstep : stepExample crit eos_index score ex with
    | error e => rw [hstep] at h; cases h
    | ok fb =>
      rw [hstep] at h
      obtain ⟨f, b⟩ := fb
      obtain ⟨h1, h2⟩ := ih (f0 ++ [f]) (b0 ++ [b]) st h
      constructor
      · rw [h1]
        simp only [List.length_append, List.length_cons, List.length_nil]
        omega
      · rw [h2]
        simp only [List.length_append, List.length_cons, List.length_nil]
        omega

/-- Helper: every sample in a completed loop's backward list either was in
the initial accumulator or carries weight `1 - alpha`. -/
theorem runLoop_backward_weights_aux (crit : Criterion) (eos_index : ℕ)
    (score : Sample → ℚ) (exs : List DecodedExample) :
    ∀ f0 b0 st, runLoop crit eos_index score exs f0 b0 = .ok st →
      ∀ s ∈ st.2, s ∈ b0 ∨ s.weights = 1 - crit.alpha := by
  induction exs with
  | nil =>
    intro f0 b0 st h s hs
    unfold runLoop at h
    simp only [Except.ok.injEq] at h
    subst h
    exact Or.inl hs
  | cons ex rest ih =>
    intro f0 b0 st h s hs
    unfold runLoop at h
    cases hstep : stepExample crit eos_index score ex with
    | error e => rw [hstep] at h; cases h
    | ok fb =>
      rw [hstep] at h
      obtain ⟨f, b⟩ := fb
      rcases ih (f0 ++ [f]) (b0 ++ [b]) st h s hs with hmem | hw
      · rcases List.mem_append.mp hmem with h0 | h1
        · exact Or.inl h0
        · right
          have hsb : s = b := by simpa using h1
          obtain ⟨tokens, _, hb, _, _⟩ :=
            stepExample_ok_elim crit eos_index score ex f b hstep
          obtain ⟨os, _, hbeq⟩ :=
            mkBackwardSample_ok_elim crit eos_index ex.id ex.src tokens b hb
          rw [hsb, hbeq]
      · exact Or.inr hw

/-- Claim C9: a completed reward loop has appended exactly one forward and
one backward sample per decoded example, so at batch assembly both lists
have length equal to the number of decoded examples. -/
theorem loop_appends_one_sample_pair_per_example (crit : Criterion)
    (eos_index : ℕ) (score : Sample → ℚ) (exs : List DecodedExample)
    (st : List Sample × List Sample)
    (h : runLoop crit eos_index score exs [] [] = .ok st) :
    st.1.length = exs.length ∧ st.2.length = exs.length := by
  have hr := runLoop_lengths_aux crit eos_index score exs [] [] st h
  simpa using hr

/-- Claim C7: every backward sample of a completed reward loop has weight
exactly `1 - alpha`, independent of any per-example quantity. -/
theorem backward_sample_weight_fixed (crit : Criterion) (eos_index : ℕ)
    (score : Sample → ℚ) (exs : List DecodedExample)
    (st : List Sample × List Sample) (s : Sample)
    (h : runLoop crit eos_index score exs [] [] = .ok st)
    (hs : s ∈ st.2) : s.weights = 1 - crit.alpha := by
  rcases runLoop_backward_weights_aux crit eos_index score exs [] [] st h s hs with
    hmem | hw
  · cases hmem
  · exact hw

/-- Claim C4: every forward sample's weight is
`alpha * 0.5 + (1 - alpha) * (ngram_score / 100)` (with the placeholder
forward confidence `0.5`), and it lies in `[0, 1]` whenever `alpha ∈ [0, 1]`
and the n-gram score is in `[0, 100]`. -/
theorem forward_weight_formula_and_range (crit : Criterion) (eos_index : ℕ)
    (score : Sample → ℚ) (ex : DecodedExample) (f b : Sample)
    (h : stepExample crit eos_index score ex = .ok (f, b)) :
    f.weights = crit.alpha * (1 / 2) + (1 - crit.alpha) * (score b / 100) ∧
    (0 ≤ crit.alpha → crit.alpha ≤ 1 → 0 ≤ score b → score b ≤ 100 →
      0 ≤ f.weights ∧ f.weights ≤ 1) := by
  obtain ⟨tokens, _, _, _, rfl⟩ := stepExample_ok_elim crit eos_index score ex f b h
  refine ⟨rfl, fun h1 h2 h3 h4 => ?_⟩
  have hs0 : 0 ≤ score b / 100 := by positivity
  have hs1 : score b / 100 ≤ 1 := (div_le_one (by norm_num)).mpr h4
  have ha : 0 ≤ 1 - crit.alpha := by linarith
  constructor
  · show 0 ≤ totalReward crit.alpha (score b / 100)
    unfold totalReward lm_score
    nlinarith [mul_nonneg ha hs0]
  · show totalReward crit.alpha (score b / 100) ≤ 1
    unfold totalReward lm_score
    nlinarith [mul_le_mul_of_nonneg_left hs1 ha]

/-- Helper: all top-ranked hypotheses of a completed loop end with eos. -/
theorem runLoop_top_hypo_eos_aux (crit : Criterion) (eos_index : ℕ)
    (score : Sample → ℚ) (exs : List DecodedExample) :
    ∀ f0 b0 st, runLoop crit eos_index score exs f0 b0 = .ok st →
      ∀ ex ∈ exs, ∀ tokens, ex.hypos.head? = some tokens →
        tokens.getLast? = some eos_index := by
  induction exs with
  | nil => intro f0 b0 st h ex hex; cases hex
  | cons e rest ih =>
    intro f0 b0 st h ex hex tokens htok
    unfold runLoop at h
    cases hstep : stepExample crit eos_index score e with
    | error err => rw [hstep] at h; cases h
    | ok fb =>
      rw [hstep] at h
      obtain ⟨f, b⟩ := fb
      rcases List.mem_cons.mp hex with rfl | htail
      · obtain ⟨tokens', htok', _, hlast, _⟩ :=
          stepExample_ok_elim crit eos_index score ex f b hstep
        rw [htok] at htok'
        obtain rfl : tokens = tokens' := Option.some.inj htok'
        exact hlast
      · exact ih (f0 ++ [f]) (b0 ++ [b]) st h ex htail tokens htok

/-- Claim C2 (amended): a training step only completes when the TOP-ranked
hypothesis of every decoded example ends with the eos id, and an example
whose top hypothesis (with a nonempty token sequence and a nonempty source)
does not end with eos makes its iteration raise `AssertionError`; lower-ranked
hypotheses are never checked. -/
theorem top_hypo_eos_or_assertion (crit : Criterion) (eos_index : ℕ)
    (score : Sample → ℚ) :
    (∀ exs st, runLoop crit eos_index score exs [] [] = .ok st →
      ∀ ex ∈ exs, ∀ tokens, ex.hypos.head? = some tokens →
        tokens.getLast? = some eos_index) ∧
    (∀ (ex : DecodedExample) (tokens : List ℕ) (t : ℕ),
      ex.hypos.head? = some tokens → tokens.getLast? = some t →
      t ≠ eos_index → ex.src ≠ [] →
      stepExample crit eos_index score ex = .error .assertionError) := by
  constructor
  · intro exs st h
    exact runLoop_top_hypo_eos_aux crit eos_index score exs [] [] st h
  · intro ex tokens t htok hlast hne hsrc
    obtain ⟨rest, hh⟩ : ∃ rest, ex.hypos = tokens :: rest := by
      cases hhy : ex.hypos with
      | nil => rw [hhy] at htok; cases htok
      | cons a l =>
        rw [hhy] at htok
        simp only [List.head?_cons, Option.some.injEq] at htok
        exact ⟨l, by rw [htok]⟩
    unfold stepExample topHypoTokens
    rw [hh]
    simp only [bind, Except.bind]
    cases hb : mkBackwardSample crit eos_index ex.id ex.src tokens with
    | error e =>
      exfalso
      unfold mkBackwardSample mkOriginalSrc lastElem at hb
      cases hl : ex.src.getLast? with
      | none => exact hsrc (List.getLast?_eq_none_iff.mp hl)
      | some a =>
        rw [hl] at hb
        by_cases ha : a ≠ eos_index <;>
          simp [bind, Except.bind, pure, Except.pure, ha] at hb
    | ok bwd =>
      unfold lastElem
      rw [hlast]
      simp only [pure, Except.pure]
      rw [if_neg hne]

/-- Claim C2 (counterexample): with eos id `2`, a decoded example whose
hypothesis list is `[[7, 2], [9]]` completes the loop without raising even
though the produced hypothesis `[9]` does not end with eos: only the
top-ranked hypothesis is checked. -/
theorem every_hypo_eos_counterexample :
    runLoop ⟨1 / 2, true⟩ 2 (fun _ => 50) [⟨0, [5], [[7, 2], [9]]⟩] [] [] =
      .ok ([⟨0, [5], [7, 2], totalReward (1 / 2) (50 / 100)⟩],
           [⟨0, [7], [5, 2], 1 - (1 / 2 : ℚ)⟩]) ∧
    [9] ∈ (⟨0, [5], [[7, 2], [9]]⟩ : DecodedExample).hypos ∧
    ([9] : List ℕ).getLast? ≠ some 2 :=
  ⟨rfl, by simp, by simp⟩

/-- Witness for `top_hypo_eos_or_assertion`: a completed singleton run whose
top hypothesis `[4, 2]` ends with eos `2`, and a step on top hypothesis
`[4, 7]` that raises `AssertionError`. -/
theorem top_hypo_eos_or_assertion_witness :
    ([4, 2] : List ℕ).getLast? = some 2 ∧
    stepExample ⟨1 / 2, true⟩ 2 (fun _ => 50) ⟨1, [5], [[4, 7]]⟩ =
      .error .assertionError :=
  ⟨(top_hypo_eos_or_assertion ⟨1 / 2, true⟩ 2 (fun _ => 50)).1
      [⟨0, [5], [[4, 2]]⟩]
      ([⟨0, [5], [4, 2], totalReward (1 / 2) (50 / 100)⟩],
       [⟨0, [4], [5, 2], 1 - (1 / 2 : ℚ)⟩])
      rfl ⟨0, [5], [[4, 2]]⟩ (by simp) [4, 2] rfl,
   (top_hypo_eos_or_assertion ⟨1 / 2, true⟩ 2 (fun _ => 50)).2
      ⟨1, [5], [[4, 7]]⟩ [4, 7] 7 rfl rfl (by decide) (by decide)⟩

/-- Claim C10: when `append_eos_to_source` is false (eos removal at source
enabled), the backward sample's source is the top forward hypothesis with its
final token removed unconditionally — no hypothesis about the last token is
needed, because the eos assertion is only evaluated after the backward sample
is built. -/
theorem backward_source_drops_last_unconditionally (args : Args)
    (eos_index id : ℕ) (src tokens : List ℕ) (b : Sample)
    (hflag : args.append_eos_to_source = false)
    (h : mkBackwardSample (mkCriterion args) eos_index id src tokens = .ok b) :
    b.source = tokens.dropLast := by
  obtain ⟨os, _, rfl⟩ :=
    mkBackwardSample_ok_elim (mkCriterion args) eos_index id src tokens b h
  show mkBtSrc (mkCriterion args) tokens = tokens.dropLast
  unfold mkBtSrc mkCriterion
  rw [hflag]
  rfl

/-- Witness for `backward_source_drops_last_unconditionally`: with
`append_eos_to_source = false` and top hypothesis `[7, 9]` — which does NOT
end with the eos id `2` — the backward sample's source is still
`[7, 9].dropLast = [7]`. -/
theorem backward_source_drops_last_witness :
    (⟨3, [7], [5, 2], 1 - (1 / 2 : ℚ)⟩ : Sample).source =
      ([7, 9] : List ℕ).dropLast :=
  backward_source_drops_last_unconditionally ⟨1 / 2, false⟩ 2 3 [5] [7, 9]
    ⟨3, [7], [5, 2], 1 - (1 / 2 : ℚ)⟩ rfl rfl

/-- Claim C8 (amended): when the original source's last token is not eos,
exactly one eos is appended; when it already is eos, nothing is appended;
hence the result always ends with eos and ends in a duplicated eos only when
the input already did. -/
theorem append_eos_behavior (eos_index : ℕ) (src : List ℕ) (last : ℕ)
    (hl : src.getLast? = some last) :
    (last ≠ eos_index → mkOriginalSrc eos_index src = .ok (src ++ [eos_index])) ∧
    (last = eos_index → mkOriginalSrc eos_index src = .ok src) ∧
    (∀ r, mkOriginalSrc eos_index src = .ok r →
      r.getLast? = some eos_index ∧
      (r.dropLast.getLast? = some eos_index →
        src.getLast? = some eos_index ∧
          src.dropLast.getLast? = some eos_index)) := by
  unfold mkOriginalSrc lastElem
  rw [hl]
  simp only [bind, Except.bind, pure, Except.pure]
  by_cases he : last = eos_index
  · subst he
    rw [if_neg (by simp)]
    refine ⟨fun hc => absurd rfl hc, fun _ => rfl, fun r hr => ?_⟩
    obtain rfl : src = r := Except.ok.inj hr
    exact ⟨hl, fun hd => ⟨rfl, hd⟩⟩
  · rw [if_pos he]
    refine ⟨fun _ => rfl, fun hc => absurd hc he, fun r hr => ?_⟩
    obtain rfl : src ++ [eos_index] = r := Except.ok.inj hr
    constructor
    · simp
    · intro hd
      rw [List.dropLast_concat] at hd
      rw [hl] at hd
      exact absurd (Option.some.inj hd) he

/-- Witness for `append_eos_behavior`: with eos id `2` and source `[3, 5]`
(not ending with eos), exactly one eos is appended. -/
theorem append_eos_behavior_witness :
    ((5 : ℕ) ≠ 2 → mkOriginalSrc 2 [3, 5] = .ok ([3, 5] ++ [2])) ∧
    ((5 : ℕ) = 2 → mkOriginalSrc 2 [3, 5] = .ok [3, 5]) ∧
    (∀ r, mkOriginalSrc 2 [3, 5] = .ok r →
      r.getLast? = some 2 ∧
      (r.dropLast.getLast? = some 2 →
        ([3, 5] : List ℕ).getLast? = some 2 ∧
          ([3, 5] : List ℕ).dropLast.getLast? = some 2)) :=
  append_eos_behavior 2 [3, 5] 5 rfl

/-- Claim C8 (counterexample): a source already ending in two eos tokens is
returned unchanged, so the backward target CAN end in a duplicated eos —
the operation merely never introduces one. -/
theorem append_eos_duplicate_counterexample :
    mkOriginalSrc 2 [2, 2] = .ok [2, 2] ∧
    ([2, 2] : List ℕ).getLast? = some 2 ∧
    ([2, 2] : List ℕ).dropLast.getLast? = some 2 :=
  ⟨rfl, by simp, by simp⟩

/-- Claim C3 (amended): the maximum output length is Python
`int(max_len_a * srclen + max_len_b)` — truncation toward zero, which for the
nonnegative configurations is the floor, not rounding to nearest. -/
theorem maxlen_truncates (max_len_a max_len_b : ℚ) (srclen : ℕ)
    (ha : 0 ≤ max_len_a) (hb : 0 ≤ max_len_b) :
    maxlen max_len_a max_len_b srclen = ⌊max_len_a * srclen + max_len_b⌋ := by
  unfold maxlen pyInt
  rw [if_pos]
  have hn : (0 : ℚ) ≤ (srclen : ℚ) := by positivity
  have := mul_nonneg ha hn
  linarith

/-- Witness for `maxlen_truncates`: `max_len_a = 1/2`, `max_len_b = 1/2`,
`srclen = 3` gives `int(2) = ⌊2⌋`. -/
theorem maxlen_truncates_witness :
    maxlen (1 / 2) (1 / 2) 3 = ⌊(1 / 2 : ℚ) * ((3 : ℕ) : ℚ) + 1 / 2⌋ :=
  maxlen_truncates (1 / 2) (1 / 2) 3 (by norm_num) (by norm_num)

/-- Claim C3 (counterexample): with `max_len_a = 9/10`, `max_len_b = 0` and
`srclen = 1` the code computes `int(0.9) = 0`, while rounding to the nearest
integer gives `1`. -/
theorem maxlen_not_round_counterexample :
    maxlen (9 / 10) 0 1 = 0 ∧
    round ((9 / 10 : ℚ) * ((1 : ℕ) : ℚ) + 0) = 1 ∧ (0 : ℤ) ≠ 1 := by
  refine ⟨by norm_num [maxlen, pyInt], by norm_num [round_eq], by decide⟩

/-- Witness for `forward_weight_formula_and_range`: a concrete completed step
with `alpha = 1/2` and n-gram score `50`. -/
theorem forward_weight_formula_witness :
    ((⟨0, [5], [4, 2], totalReward (1 / 2) (50 / 100)⟩ : Sample).weights =
        (1 / 2 : ℚ) * (1 / 2) +
          (1 - 1 / 2) * ((50 : ℚ) / 100) ∧
      ((0 : ℚ) ≤ 1 / 2 → (1 / 2 : ℚ) ≤ 1 → (0 : ℚ) ≤ 50 → (50 : ℚ) ≤ 100 →
        0 ≤ (⟨0, [5], [4, 2], totalReward (1 / 2) (50 / 100)⟩ : Sample).weights ∧
        (⟨0, [5], [4, 2], totalReward (1 / 2) (50 / 100)⟩ : Sample).weights ≤ 1)) := by
  have h := forward_weight_formula_and_range ⟨1 / 2, true⟩ 2 (fun _ => 50)
    ⟨0, [5], [[4, 2]]⟩
    ⟨0, [5], [4, 2], totalReward (1 / 2) (50 / 100)⟩
    ⟨0, [4], [5, 2], 1 - (1 / 2 : ℚ)⟩ rfl
  exact h

/-- Witness for `backward_sample_weight_fixed`: in a completed singleton run
with `alpha = 1/2`, the backward sample's weight is `1 - 1/2`. -/
theorem backward_sample_weight_witness :
    (⟨0, [4], [5, 2], 1 - (1 / 2 : ℚ)⟩ : Sample).weights = 1 - (1 / 2 : ℚ) :=
  backward_sample_weight_fixed ⟨1 / 2, true⟩ 2 (fun _ => 50)
    [⟨0, [5], [[4, 2]]⟩]
    ([⟨0, [5], [4, 2], totalReward (1 / 2) (50 / 100)⟩],
     [⟨0, [4], [5, 2], 1 - (1 / 2 : ℚ)⟩])
    ⟨0, [4], [5, 2], 1 - (1 / 2 : ℚ)⟩ rfl (by simp)

/-- Witness for `loop_appends_one_sample_pair_per_example`: a completed
two-example run yields two forward and two backward samples. -/
theorem loop_appends_one_sample_pair_witness :
    ([⟨0, [5], [4, 2], totalReward (1 / 2) (50 / 100)⟩,
      ⟨1, [6], [3, 2], totalReward (1 / 2) (50 / 100)⟩] : List Sample).length =
      ([⟨0, [5], [[4, 2]]⟩, ⟨1, [6], [[3, 2]]⟩] : List DecodedExample).length ∧
    ([⟨0, [4], [5, 2], 1 - (1 / 2 : ℚ)⟩,
      ⟨1, [3], [6, 2], 1 - (1 / 2 : ℚ)⟩] : List Sample).length =
      ([⟨0, [5], [[4, 2]]⟩, ⟨1, [6], [[3, 2]]⟩] : List DecodedExample).length :=
  loop_appends_one_sample_pair_per_example ⟨1 / 2, true⟩ 2 (fun _ => 50)
    [⟨0, [5], [[4, 2]]⟩, ⟨1, [6], [[3, 2]]⟩]
    ([⟨0, [5], [4, 2], totalReward (1 / 2) (50 / 100)⟩,
      ⟨1, [6], [3, 2], totalReward (1 / 2) (50 / 100)⟩],
     [⟨0, [4], [5, 2], 1 - (1 / 2 : ℚ)⟩,
      ⟨1, [3], [6, 2], 1 - (1 / 2 : ℚ)⟩]) rfl

end DualLearningCriterion
